import Mathlib

set_option linter.dupNamespace false
set_option maxRecDepth 100000

/-!
Verification development for the xsrc schema-to-client compiler.

The development shallowly embeds the core of the pipeline:
* the string-expression parser (`se_parser.rs`),
* the transformer that builds the scope-bound IR (`transformer.rs`),
* the context-node lookup protocol (`Context::lookup`),
* the JavaScript rewriter (`rewriter/javascript.rs`) together with the
  code-model renderer (`codegen/src/javascript/mod.rs`).

Rust strings are modelled as `String`/`List Char`; positions are 0-based
character offsets (the inputs of interest are ASCII, where character and
byte offsets coincide).  `LinkedHashMap` is modelled as an insertion-ordered
association list.  Fallible functions return `Except`.
-/

/-- Path segment of a scope reference (`se_parser.rs`, enum `Member`):
the sentinel `!super` or a named member. -/
inductive Member where
  | Super : Member
  | Member : String → Member
deriving DecidableEq, Repr

/-- Expression AST of the embedded string-expression language
(`se_parser.rs`, enum `Expr`). -/
inductive Expr where
  | Lit : String → Expr
  | Concat : Expr → Expr → Expr
  | Ref : List Member → Expr
  | Var : String → Expr
deriving DecidableEq, Repr

/-- A declared parameter: name and optional type tag (`se_parser.rs`, struct `Param`). -/
structure Param where
  name : String
  typ : Option String
deriving DecidableEq, Repr

/-- Parser errors (`se_parser.rs`, enum `ParserError`).
`DuplicateParam` is modelled from the spec: `transformer.rs` constructs
`ParserError::DuplicateParam(name)` although the enum in `se_parser.rs`
does not declare that variant; the spec lists `DuplicateParam(name)` among
the discrete error kinds, so the constructor is included here.  The
string-expression parser itself never produces it. -/
inductive ParserError where
  | EmptyExpr : ParserError
  | UnexpectedToken : String → Nat → ParserError
  | UnexpectedEOF : ParserError
  | DuplicateParam : String → ParserError
deriving DecidableEq, Repr

/-- `ident_to_member` of `se_parser.rs`: the reserved identifier `!super`
maps to the `Super` segment, all others to `Member`. -/
def ident_to_member (s : String) : Member :=
  if s = "!super" then Member.Super else Member.Member s

/-- Body loop of `parse_ref` (`se_parser.rs` lines 70-97).  `cs` is the list
of characters after the opening brace, `pos` the absolute position passed to
`parse_ref`, `inner_pos` the enumerate counter (the opening brace was item 0).
Returns the parsed `Ref`, the absolute position one past the closing brace,
and the remaining characters. -/
def parse_ref_loop (pos : Nat) : List Char → Nat → List Member → String →
    Except ParserError (Expr × Nat × List Char)
  | [], _, _, _ => Except.error ParserError.UnexpectedEOF
  | c :: rest, inner_pos, idents, curr =>
    if c = '\\' then
      Except.error (ParserError.UnexpectedToken (String.mk [c]) (pos + inner_pos))
    else if c = '\x7d' then
      if curr.length = 0 then
        Except.error (ParserError.UnexpectedToken (String.mk [c]) (pos + inner_pos))
      else
        Except.ok (Expr.Ref (idents ++ [ident_to_member curr]), pos + inner_pos + 1, rest)
    else if c = '.' then
      if curr.length = 0 then
        Except.error (ParserError.UnexpectedToken (String.mk [c]) (pos + inner_pos))
      else
        parse_ref_loop pos rest (inner_pos + 1) (idents ++ [ident_to_member curr]) ""
    else
      parse_ref_loop pos rest (inner_pos + 1) idents (curr.push c)

/-- `parse_ref` of `se_parser.rs`: expects an opening brace at `pos`, then
dot-separated identifiers up to the closing brace.  `cs` is the character
suffix of the input starting at absolute position `pos`; the returned
position and character suffix stay in step with the original input. -/
def parse_ref (cs : List Char) (pos : Nat) : Except ParserError (Expr × Nat × List Char) :=
  match cs with
  | [] => Except.error ParserError.UnexpectedEOF
  | c :: rest =>
    if c ≠ '\x7b' then
      Except.error (ParserError.UnexpectedToken (String.mk [c]) pos)
    else
      parse_ref_loop pos rest 1 [] ""

/-- Loop of `parse_param` (`se_parser.rs` lines 106-135): reads a name until
a colon or closing angle bracket, then (after a colon) a type until the
closing angle bracket.  Returns name, type buffer, the `in_var` flag and the
absolute position one past the closing bracket, plus the remaining input. -/
def parse_param_loop (pos : Nat) : List Char → Nat → String → String → Bool →
    Except ParserError (String × String × Bool × Nat × List Char)
  | [], _, _, _, _ => Except.error ParserError.UnexpectedEOF
  | c :: rest, inner_pos, var, typ, in_var =>
    if c = '>' then
      if var.length = 0 then
        Except.error (ParserError.UnexpectedToken (String.mk [c]) (pos + inner_pos))
      else
        Except.ok (var, typ, in_var, pos + inner_pos + 1, rest)
    else if c = ':' then
      if var.length = 0 then
        Except.error (ParserError.UnexpectedToken (String.mk [c]) (pos + inner_pos))
      else if ¬ in_var then
        Except.error (ParserError.UnexpectedToken (String.mk [c]) (pos + inner_pos))
      else
        parse_param_loop pos rest (inner_pos + 1) var typ false
    else
      if in_var then
        parse_param_loop pos rest (inner_pos + 1) (var.push c) typ in_var
      else
        parse_param_loop pos rest (inner_pos + 1) var (typ.push c) in_var

/-- `parse_param` of `se_parser.rs`: begins just after the opening angle
bracket.  A colon with no succeeding type is `UnexpectedEOF`; an absent type
yields `typ = none`. -/
def parse_param (cs : List Char) (pos : Nat) :
    Except ParserError (Expr × Param × Nat × List Char) :=
  match parse_param_loop pos cs 0 "" "" true with
  | Except.error e => Except.error e
  | Except.ok (var, typ, in_var, endPos, rest) =>
    if ¬ in_var ∧ typ.length = 0 then
      Except.error ParserError.UnexpectedEOF
    else
      Except.ok (Expr.Var var,
        { name := var, typ := if typ.length = 0 then none else some typ },
        endPos, rest)

/-- The fold of the `for` loop in `collect_exprs` (`se_parser.rs` lines 153-157):
left-associative combination with `Concat`. -/
def collect_fold (acc : Expr) : List Expr → Expr
  | [] => acc
  | e :: rest => collect_fold (Expr.Concat acc e) rest

/-- `collect_exprs` of `se_parser.rs`: an empty segment list is `EmptyExpr`,
otherwise the segments are combined left-to-right with `Concat`. -/
def collect_exprs : List Expr → Except ParserError Expr
  | [] => Except.error ParserError.EmptyExpr
  | e :: rest => Except.ok (collect_fold e rest)

/-- The driver loop of `parse_expr` (`se_parser.rs` lines 167-206).  `cs` is
the remaining input (the suffix of the original string starting at absolute
position `i`), `curr` the literal buffer, `exprs`/`params` the accumulators.
`fuel` only bounds the recursion: every iteration consumes at least one
character, so `length + 1` units never run out (the fuel-exhausted branch is
unreachable). -/
def parse_expr_loop : Nat → List Char → Nat → List Expr → List Param → String →
    Except ParserError (List Expr × List Param)
  | 0, _, _, _, _, _ => Except.error ParserError.UnexpectedEOF
  | _ + 1, [], _, exprs, params, curr =>
    if curr.length ≠ 0 then Except.ok (exprs ++ [Expr.Lit curr], params)
    else Except.ok (exprs, params)
  | fuel + 1, c :: rest, i, exprs, params, curr =>
    if c = '$' then
      let exprs := if curr.length ≠ 0 then exprs ++ [Expr.Lit curr] else exprs
      match parse_ref rest (i + 1) with
      | Except.error e => Except.error e
      | Except.ok (expr, pos, rest1) =>
        parse_expr_loop fuel rest1 pos (exprs ++ [expr]) params ""
    else if c = '<' then
      let exprs := if curr.length ≠ 0 then exprs ++ [Expr.Lit curr] else exprs
      match parse_param rest (i + 1) with
      | Except.error e => Except.error e
      | Except.ok (expr, param, pos, rest2) =>
        parse_expr_loop fuel rest2 pos (exprs ++ [expr]) (params ++ [param]) ""
    else if c = '\\' then
      match rest with
      | [] => Except.error ParserError.UnexpectedEOF
      | c2 :: rest2 => parse_expr_loop fuel rest2 (i + 2) exprs params (curr.push c2)
    else
      parse_expr_loop fuel rest (i + 1) exprs params (curr.push c)

/-- The segment-collection phase of `parse_expr`: runs the driver loop over
the whole input and returns the raw segment list and declared parameters. -/
def parse_segments (s : String) : Except ParserError (List Expr × List Param) :=
  parse_expr_loop (s.data.length + 1) s.data 0 [] [] ""

/-- `parse_expr` of `se_parser.rs`: collects segments, then folds them with
`collect_exprs`. -/
def parse_expr (s : String) : Except ParserError (Expr × List Param) :=
  match parse_segments s with
  | Except.error e => Except.error e
  | Except.ok (exprs, params) =>
    match collect_exprs exprs with
    | Except.error e => Except.error e
    | Except.ok result => Except.ok (result, params)

/-- HTTP method tags (`transformer.rs`, enum `HttpMethod`). -/
inductive HttpMethod where
  | GET | POST | PUT | DELETE | HEAD | OPTIONS | PATCH
deriving DecidableEq, Repr

/-- `HttpMethod::from_str` (`transformer.rs` lines 26-37).  The Rust match
accepts exactly the all-lowercase and all-uppercase spellings and executes
`panic!` on every other string; the panic is modelled as `none`. -/
def HttpMethod.from_str (s : String) : Option HttpMethod :=
  if s = "get" ∨ s = "GET" then some HttpMethod.GET
  else if s = "post" ∨ s = "POST" then some HttpMethod.POST
  else if s = "put" ∨ s = "PUT" then some HttpMethod.PUT
  else if s = "delete" ∨ s = "DELETE" then some HttpMethod.DELETE
  else if s = "head" ∨ s = "HEAD" then some HttpMethod.HEAD
  else if s = "options" ∨ s = "OPTIONS" then some HttpMethod.OPTIONS
  else if s = "patch" ∨ s = "PATCH" then some HttpMethod.PATCH
  else none

/-- A context scope value (`transformer.rs`, enum `ContextValue`). -/
inductive ContextValue where
  | Expr : Expr → ContextValue
deriving DecidableEq, Repr

/-- A context node (`transformer.rs`, struct `Context`) in downward-tree
form: name, named children, local scope.  The Rust struct also stores
`parent: Option<Rc<RefCell<Context>>>`; in every context graph this
repository builds, a child's parent pointer refers to the node whose
`children` mapping holds it (or to the node that created it), so the parent
chain is supplied to `lookup` explicitly as a list of ancestor nodes,
nearest parent first. -/
inductive CtxTree where
  | mk : String → List (String × CtxTree) → List (String × ContextValue) → CtxTree

/-- Name of a context node. -/
def CtxTree.name : CtxTree → String
  | CtxTree.mk n _ _ => n

/-- Children mapping of a context node. -/
def CtxTree.children : CtxTree → List (String × CtxTree)
  | CtxTree.mk _ c _ => c

/-- Local scope mapping of a context node. -/
def CtxTree.scope : CtxTree → List (String × ContextValue)
  | CtxTree.mk _ _ s => s

/-- Context lookup errors (`transformer.rs`, enum `ContextLookupError`). -/
inductive ContextLookupError where
  | NoSuchMember : String → List String → ContextLookupError
  | EmptyKey : List String → ContextLookupError
  | LookupOnValue : String → ContextValue → ContextLookupError
deriving DecidableEq, Repr

/-- Transformer errors (`transformer.rs`, enum `TransformerError`).
`Panic` is not a variant of the Rust enum: it models the `panic!` in
`HttpMethod::from_str`, which aborts the process instead of returning an
error value. -/
inductive TransformerError where
  | ContextLookupError : ContextLookupError → TransformerError
  | ParserError : ParserError → TransformerError
  | Panic : String → TransformerError
deriving DecidableEq, Repr

/-- `Context::path` (`transformer.rs` lines 183-192): the dotted name chain
from the root down to this node.  With ancestors listed nearest-first this
is the reversed ancestor names followed by the node's own name. -/
def ctx_path (ancs : List CtxTree) (node : CtxTree) : List String :=
  (ancs.reverse.map CtxTree.name) ++ [node.name]

/-- `HashMap::get` on a context scope (used by `Context::lookup_local`). -/
def scope_get (scope : List (String × ContextValue)) (k : String) : Option ContextValue :=
  (scope.find? (fun p => p.1 = k)).map (fun p => p.2)

/-- `HashMap::get` on a context children mapping. -/
def child_get (children : List (String × CtxTree)) (k : String) : Option CtxTree :=
  (children.find? (fun p => p.1 = k)).map (fun p => p.2)

/-- `Context::lookup` (`transformer.rs` lines 205-237).  `ancs` is the parent
chain of `node`, nearest parent first.  The function only reads the tree;
it can return no modified tree. -/
def lookupCtx : List CtxTree → CtxTree → List String → Except ContextLookupError ContextValue
  | ancs, node, [] => Except.error (ContextLookupError.EmptyKey (ctx_path ancs node))
  | ancs, node, k :: rest =>
    if k = "!super" then
      match ancs with
      | [] => Except.error (ContextLookupError.NoSuchMember "!super" (ctx_path [] node))
      | p :: rest_ancs => lookupCtx rest_ancs p rest
    else
      match scope_get node.scope k with
      | some val =>
        if rest.length > 0 then
          Except.error (ContextLookupError.LookupOnValue k val)
        else
          Except.ok val
      | none =>
        match child_get node.children k with
        | some child => lookupCtx (node :: ancs) child rest
        | none => Except.error (ContextLookupError.NoSuchMember k (ctx_path ancs node))

/-- An endpoint schema node (`schema.rs`, struct `APISchema`): method string,
query parameters, body fields, URL string.  The parameter and body mappings
are `LinkedHashMap`s, modelled as insertion-ordered association lists. -/
structure APISchema where
  method : String
  params : List (String × Option String)
  data : List (String × Option String)
  url : String
deriving DecidableEq, Repr

mutual

/-- A schema child (`schema.rs`, enum `APIData`): endpoint or group. -/
inductive APIData where
  | API : APISchema → APIData
  | APISet : APISetSchema → APIData

/-- A group schema node (`schema.rs`, struct `APISetSchema`): URL string and
insertion-ordered children. -/
inductive APISetSchema where
  | mk : String → List (String × APIData) → APISetSchema

end

/-- URL string of a group schema node. -/
def APISetSchema.url : APISetSchema → String
  | APISetSchema.mk u _ => u

/-- Children of a group schema node. -/
def APISetSchema.apisets : APISetSchema → List (String × APIData)
  | APISetSchema.mk _ a => a

/-- The root schema (`schema.rs`, struct `RootSchema`): optional URL
expression, root class name, insertion-ordered children. -/
structure RootSchema where
  url : Option String
  klsname : String
  apisets : List (String × APIData)

/-- An endpoint IR node (`transformer.rs`, struct `ContextBoundedAPI`). -/
structure ContextBoundedAPI where
  name : String
  method : HttpMethod
  url : ContextValue
  bounded_vars : List (String × Param)
  data : List (String × Param)
  params : List (String × Param)
  context : CtxTree

mutual

/-- An IR child (`transformer.rs`, enum `ContextBoundedAPIData`). -/
inductive ContextBoundedAPIData where
  | API : ContextBoundedAPI → ContextBoundedAPIData
  | APISet : ContextBoundedAPISet → ContextBoundedAPIData

/-- A group IR node (`transformer.rs`, struct `ContextBoundedAPISet`):
name, URL expression, bound variables, children, context node. -/
inductive ContextBoundedAPISet where
  | mk : String → ContextValue → List (String × Param) →
      List (String × ContextBoundedAPIData) → CtxTree → ContextBoundedAPISet

end

/-- Name of a group IR node. -/
def ContextBoundedAPISet.name : ContextBoundedAPISet → String
  | ContextBoundedAPISet.mk n _ _ _ _ => n

/-- URL expression of a group IR node. -/
def ContextBoundedAPISet.url : ContextBoundedAPISet → ContextValue
  | ContextBoundedAPISet.mk _ u _ _ _ => u

/-- Bound variables of a group IR node. -/
def ContextBoundedAPISet.bounded_vars : ContextBoundedAPISet → List (String × Param)
  | ContextBoundedAPISet.mk _ _ b _ _ => b

/-- Children of a group IR node. -/
def ContextBoundedAPISet.apisets : ContextBoundedAPISet → List (String × ContextBoundedAPIData)
  | ContextBoundedAPISet.mk _ _ _ a _ => a

/-- Context node of a group IR node. -/
def ContextBoundedAPISet.context : ContextBoundedAPISet → CtxTree
  | ContextBoundedAPISet.mk _ _ _ _ c => c

/-- The root IR node (`transformer.rs`, struct `ContextBoundedRoot`). -/
structure ContextBoundedRoot where
  klsname : String
  url : ContextValue
  bounded_vars : List (String × Param)
  apisets : List (String × ContextBoundedAPIData)
  context : CtxTree

/-- `LinkedHashMap::insert`: replaces the value in place when the key is
present (returning the old value), otherwise appends the pair at the end. -/
def lhm_insert : List (String × Param) → String → Param → List (String × Param) × Option Param
  | [], k, v => ([(k, v)], none)
  | (k0, v0) :: rest, k, v =>
    if k0 = k then ((k0, v) :: rest, some v0)
    else
      let r := lhm_insert rest k v
      ((k0, v0) :: r.1, r.2)

/-- Conversion of the parser's parameter list into the insertion-ordered
bound-variables mapping (the transformer stores `parse_expr`'s parameters as
a `LinkedHashMap` keyed by parameter name). -/
def paramsToLHM (ps : List Param) : List (String × Param) :=
  ps.foldl (fun m p => (lhm_insert m p.name p).1) []

/-- The parameter-merge loops of `transform_apiset` (`transformer.rs` lines
270-291): each declared query parameter or body field is inserted into the
bound-variables mapping; a key already present aborts with
`DuplicateParam`. -/
def merge_params (bv : List (String × Param)) :
    List (String × Option String) → Except TransformerError (List (String × Param))
  | [] => Except.ok bv
  | (n, t) :: rest =>
    let r := lhm_insert bv n (Param.mk n t)
    match r.2 with
    | some _ => Except.error (TransformerError.ParserError (ParserError.DuplicateParam n))
    | none => merge_params r.1 rest

/-- Key list of an insertion-ordered mapping. -/
def lhm_keys (m : List (String × Param)) : List String := m.map (fun p => p.1)

mutual

/-- `transform_apiset` (`transformer.rs` lines 240-321).  The context node
is created with empty children and scope; the function never calls
`add_child` or `add_value`, so both mappings remain empty.  For a group the
children are transformed first, then the URL is parsed; for an endpoint the
URL is parsed, query parameters and body fields are merged into the bound
variables (duplicates abort), and the method string is converted last (an
unknown method panics). -/
def transform_apiset (name : String) : APIData → Except TransformerError ContextBoundedAPIData
  | APIData.APISet (APISetSchema.mk schemaUrl schemaChildren) =>
    match transform_children schemaChildren with
    | Except.error e => Except.error e
    | Except.ok children =>
      match parse_expr schemaUrl with
      | Except.error e => Except.error (TransformerError.ParserError e)
      | Except.ok (expr, vars) =>
        Except.ok (ContextBoundedAPIData.APISet
          (ContextBoundedAPISet.mk name (ContextValue.Expr expr) (paramsToLHM vars)
            children (CtxTree.mk name [] [])))
  | APIData.API schema =>
    match parse_expr schema.url with
    | Except.error e => Except.error (TransformerError.ParserError e)
    | Except.ok (expr, vars) =>
      match merge_params (paramsToLHM vars) schema.params with
      | Except.error e => Except.error e
      | Except.ok bv1 =>
        match merge_params bv1 schema.data with
        | Except.error e => Except.error e
        | Except.ok bv2 =>
          match HttpMethod.from_str schema.method with
          | none => Except.error (TransformerError.Panic
              ("Caught unsupported HTTP method: " ++ schema.method))
          | some m =>
            Except.ok (ContextBoundedAPIData.API
              { name := name
                method := m
                url := ContextValue.Expr expr
                bounded_vars := bv2
                data := schema.data.map (fun p => (p.1, Param.mk p.1 p.2))
                params := schema.params.map (fun p => (p.1, Param.mk p.1 p.2))
                context := CtxTree.mk name [] [] })

/-- The child loops of `transform_apiset` and `transform`: transform each
child in insertion order, propagating the first error. -/
def transform_children : List (String × APIData) →
    Except TransformerError (List (String × ContextBoundedAPIData))
  | [] => Except.ok []
  | (k, v) :: rest =>
    match transform_apiset k v with
    | Except.error e => Except.error e
    | Except.ok child =>
      match transform_children rest with
      | Except.error e => Except.error e
      | Except.ok cs => Except.ok ((k, child) :: cs)

end

/-- `transform` (`transformer.rs` lines 323-357).  A present root URL is
parsed and its parameters become the root's bound variables; an absent URL
synthesizes `Expr::Var("url")` with a single `Param{name:"url",
type:"string"}`.  The root context node is created with empty children and
scope (no child is ever appended to it). -/
def transform (source : RootSchema) : Except TransformerError ContextBoundedRoot :=
  match (match source.url with
    | some s =>
      (match parse_expr s with
       | Except.error e => Except.error (TransformerError.ParserError e)
       | Except.ok (expr, vars) => Except.ok (ContextValue.Expr expr, paramsToLHM vars))
    | none =>
      Except.ok (ContextValue.Expr (Expr.Var "url"),
        [("url", Param.mk "url" (some "string"))])) with
  | Except.error e => Except.error e
  | Except.ok (url, bounded_vars) =>
    match transform_children source.apisets with
    | Except.error e => Except.error e
    | Except.ok apisets =>
      Except.ok
        { klsname := source.klsname
          url := url
          bounded_vars := bounded_vars
          apisets := apisets
          context := CtxTree.mk source.klsname [] [] }

namespace JS

/-- Abbreviation for the built-in string type, needed inside declarations
whose own constructors shadow the name `String`. -/
abbrev Str := String

/-- Code-model literal (`codegen/src/javascript/mod.rs`, enum `Literal`).
The `f64` payload of `Number` is modelled by its rendered decimal string;
no claim exercises numeric literals. -/
inductive Literal where
  | Number : Str → Literal
  | String : Str → Literal
  | Boolean : Bool → Literal

/-- Declaration kind (`codegen/src/javascript/mod.rs`, enum `DeclType`). -/
inductive DeclType where
  | Var | Let | Const

/-- `fmt::Display` for `DeclType`. -/
def DeclType.str : DeclType → String
  | DeclType.Var => "var"
  | DeclType.Let => "let"
  | DeclType.Const => "const"

/-- Declaration without initializer (`codegen/src/javascript/mod.rs`,
struct `Decl`).  `Ident` is modelled as its underlying string. -/
structure Decl where
  typ : DeclType
  ident : String

/-- A name in an import list (`codegen/src/javascript/mod.rs`,
enum `ImportName`). -/
inductive ImportName where
  | Simple : String → ImportName
  | Alias : String → String → ImportName

/-- Import statement (`codegen/src/javascript/mod.rs`, struct `Import`).
`Sum.inl ()` stands for `ImportStar`. -/
structure Import where
  def_ : Option String
  imps : Option (Sum Unit (List ImportName))
  path : String

mutual

/-- Code-model expression as used by `rewriter/javascript.rs`.  The variants
`Literal`, `Var`, `Comp`, `Arith`, `FuncCall`, `Func` and `ArrowFunc` are
from `codegen/src/javascript/mod.rs` (`CompOp`/`ArithOp` are opaque string
tokens).  `Member`, `Instantiate` and `Object` are constructed by the
rewriter but absent from the codegen sources in the repository snapshot;
they are modelled from the spec (section 4.4 data model and the section 8
scenario renderings). -/
inductive Expr where
  | Literal : Literal → Expr
  | Var : String → Expr
  | Member : Expr → String → Expr
  | Instantiate : Expr → List Expr → Expr
  | Comp : String → Expr → Expr → Expr
  | Arith : String → Expr → Expr → Expr
  | FuncCall : Expr → List Expr → Expr
  | Func : String → List String → List Stmt → Bool → Expr
  | ArrowFunc : List String → Sum (List Stmt) Expr → Bool → Expr
  | Object : List (String × Expr) → Expr

/-- Modelled from the spec: assignment statement with an arbitrary
expression assignee (spec section 4.4, `Assign { decl_type?, assignee,
value }`); the codegen source in the snapshot still restricts the assignee
to a bare identifier, but the rewriter assigns to member expressions.
Fields: optional declaration kind, assignee, value. -/
inductive Assign where
  | mk : Option DeclType → Expr → Expr → Assign

/-- Code-model statement (`codegen/src/javascript/mod.rs`, enum `Stmt`).
`Export` carries `is_default` and the exported statement. -/
inductive Stmt where
  | Expr : Expr → Stmt
  | Decl : Decl → Stmt
  | Assign : Assign → Stmt
  | Return : Expr → Stmt
  | ForLoop : Option Assign → Option Expr → Option Expr → List Stmt → Stmt
  | Import : Import → Stmt
  | Class : Class → Stmt
  | Export : Bool → Stmt → Stmt

/-- Class constructor (`codegen/src/javascript/mod.rs`, struct
`Constructor`): parameter identifiers and body statements. -/
inductive Constructor where
  | mk : List String → List Stmt → Constructor

/-- Class method (`codegen/src/javascript/mod.rs`, struct `Method`):
name, parameters, body, async flag. -/
inductive Method where
  | mk : String → List String → List Stmt → Bool → Method

/-- Class getter (`codegen/src/javascript/mod.rs`, struct `Getter`). -/
inductive Getter where
  | mk : String → List Stmt → Getter

/-- Class (`codegen/src/javascript/mod.rs`, struct `Class`): name, optional
base class, optional constructor, methods, getters. -/
inductive Class where
  | mk : String → Option String → Option Constructor → List Method → List Getter → Class

end

/-- Constructor parameters. -/
def Constructor.params : Constructor → List String
  | Constructor.mk p _ => p

/-- Constructor body statements. -/
def Constructor.stmts : Constructor → List Stmt
  | Constructor.mk _ s => s

/-- Class name. -/
def Class.ident : Class → String
  | Class.mk i _ _ _ _ => i

/-- Class getters. -/
def Class.getters : Class → List Getter
  | Class.mk _ _ _ _ g => g

/-- Class methods. -/
def Class.methods : Class → List Method
  | Class.mk _ _ _ m _ => m

/-- `Vec::push` on a class's method list (`kls.methods.push(method)`). -/
def Class.push_method : Class → Method → Class
  | Class.mk i e c ms gs, m => Class.mk i e c (ms ++ [m]) gs

/-- `Vec::push` on a class's getter list (`kls.getters.push(getter)`). -/
def Class.push_getter : Class → Getter → Class
  | Class.mk i e c ms gs, g => Class.mk i e c ms (gs ++ [g])

/-- `Gen` for `Literal`: strings are wrapped in double quotes verbatim,
booleans render as `true`/`false`. -/
def Literal.gen : Literal → Str
  | Literal.Number n => n
  | Literal.String s => "\"" ++ s ++ "\""
  | Literal.Boolean b => if b then "true" else "false"

/-- `Gen` for `Decl`. -/
def Decl.gen (d : Decl) : String := d.typ.str ++ " " ++ d.ident

/-- `Gen` for `ImportName`. -/
def ImportName.gen : ImportName → String
  | ImportName.Simple i => i
  | ImportName.Alias o n => o ++ " as " ++ n

/-- `Gen` for `Import` (`codegen/src/javascript/mod.rs` lines 432-459):
a side-effect-only import when neither a default nor named imports are
present, otherwise the comma list of default identifier, `*`, and braced
named imports. -/
def Import.gen (imp : Import) : String :=
  if imp.def_.isSome ∨ imp.imps.isSome then
    let all0 : List String :=
      match imp.def_ with
      | some i => [i]
      | none => []
    let all1 : List String :=
      match imp.imps with
      | some (Sum.inl _) => all0 ++ ["*"]
      | _ => all0
    let named : List String :=
      match imp.imps with
      | some (Sum.inr names) => names.map ImportName.gen
      | _ => []
    let all2 : List String :=
      if named.length > 0 then
        all1 ++ ["\x7b" ++ String.intercalate ", " named ++ "\x7d"]
      else all1
    "import " ++ String.intercalate ", " all2 ++ " from \"" ++ imp.path ++ "\";"
  else
    "import \"" ++ imp.path ++ "\";"

mutual

/-- `Gen` for expressions.  `Comp` and `Arith` parenthesize both operands;
`Member`, `Instantiate` and `Object` render as `base.member`,
`new ctor(args)` and a braced key-value list, the surface forms fixed by
the spec's scenario renderings. -/
def Expr.gen : Expr → String
  | Expr.Literal val => val.gen
  | Expr.Var ident => ident
  | Expr.Member base member => Expr.gen base ++ "." ++ member
  | Expr.Instantiate ctor args => "new " ++ Expr.gen ctor ++ "(" ++ exprs_gen args ++ ")"
  | Expr.Comp op l r => "(" ++ Expr.gen l ++ ") " ++ op ++ " (" ++ Expr.gen r ++ ")"
  | Expr.Arith op l r => "(" ++ Expr.gen l ++ ") " ++ op ++ " (" ++ Expr.gen r ++ ")"
  | Expr.FuncCall func args => Expr.gen func ++ "(" ++ exprs_gen args ++ ")"
  | Expr.Func ident params stmts is_async =>
    "(" ++ (if is_async then "async " else "") ++ "function " ++ ident ++ "(" ++
      String.intercalate ", " params ++ ") \x7b\n" ++ stmts_gen stmts ++ "\n\x7d)"
  | Expr.ArrowFunc params (Sum.inl stmts) is_async =>
    "(" ++ (if is_async then "async " else "") ++ String.intercalate ", " params ++
      ") => \x7b\n" ++ stmts_gen stmts ++ "\n\x7d"
  | Expr.ArrowFunc params (Sum.inr expr) is_async =>
    (if is_async then "async " else "") ++ "(" ++ String.intercalate ", " params ++
      ") => " ++ Expr.gen expr
  | Expr.Object entries => "\x7b " ++ obj_gen entries ++ " \x7d"

/-- Renders a comma-separated argument list. -/
def exprs_gen : List Expr → String
  | [] => ""
  | [e] => Expr.gen e
  | e :: rest => Expr.gen e ++ ", " ++ exprs_gen rest

/-- Renders object entries as a comma-separated `key: value` list. -/
def obj_gen : List (String × Expr) → String
  | [] => ""
  | [(k, v)] => k ++ ": " ++ Expr.gen v
  | (k, v) :: rest => k ++ ": " ++ Expr.gen v ++ ", " ++ obj_gen rest

/-- `Gen` for `Assign`: optional declaration kind, assignee, `=`, value. -/
def Assign.gen : Assign → String
  | Assign.mk (some typ) assignee expr =>
    typ.str ++ " " ++ Expr.gen assignee ++ " = " ++ Expr.gen expr
  | Assign.mk none assignee expr => Expr.gen assignee ++ " = " ++ Expr.gen expr

/-- `Gen` for statements: expression, declaration and assignment statements
get a trailing semicolon; imports, classes and exports render their payload. -/
def Stmt.gen : Stmt → String
  | Stmt.Expr e => Expr.gen e ++ ";"
  | Stmt.Decl d => d.gen ++ ";"
  | Stmt.Assign a => Assign.gen a ++ ";"
  | Stmt.Return e => "return " ++ Expr.gen e ++ ";"
  | Stmt.ForLoop inst chk incr stmts =>
    "for (" ++ (match inst with | some a => Assign.gen a | none => "") ++ "; " ++
      (match chk with | some e => Expr.gen e | none => "") ++ "; " ++
      (match incr with | some e => Expr.gen e | none => "") ++ ") \x7b\n" ++
      stmts_gen stmts ++ "\n\x7d"
  | Stmt.Import imp => imp.gen
  | Stmt.Export is_default stmt =>
    (if is_default then "export default " else "export ") ++ Stmt.gen stmt
  | Stmt.Class kls => Class.gen kls

/-- Renders a statement block joined with newlines. -/
def stmts_gen : List Stmt → String
  | [] => ""
  | [s] => Stmt.gen s
  | s :: rest => Stmt.gen s ++ "\n" ++ stmts_gen rest

/-- `Gen` for `Constructor`. -/
def Constructor.gen : Constructor → String
  | Constructor.mk params stmts =>
    "constructor(" ++ String.intercalate ", " params ++ ") \x7b\n" ++
      stmts_gen stmts ++ "\n\x7d"

/-- `Gen` for `Method`. -/
def Method.gen : Method → String
  | Method.mk ident params stmts is_async =>
    (if is_async then "async " else "") ++ ident ++ "(" ++
      String.intercalate ", " params ++ ") \x7b\n" ++ stmts_gen stmts ++ "\n\x7d"

/-- `Gen` for `Getter`. -/
def Getter.gen : Getter → String
  | Getter.mk ident stmts =>
    "get " ++ ident ++ "() \x7b\n" ++ stmts_gen stmts ++ "\n\x7d"

/-- Renders the optional constructor as a zero-or-one element list of
member renderings. -/
def ctor_opt_gen : Option Constructor → List String
  | none => []
  | some c => [Constructor.gen c]

/-- Renders each method of a class. -/
def methods_gen : List Method → List String
  | [] => []
  | m :: rest => Method.gen m :: methods_gen rest

/-- Renders each getter of a class. -/
def getters_gen : List Getter → List String
  | [] => []
  | g :: rest => Getter.gen g :: getters_gen rest

/-- `Gen` for `Class` (`codegen/src/javascript/mod.rs` lines 382-404):
constructor first, then methods, then getters, each member followed by a
newline. -/
def Class.gen : Class → String
  | Class.mk ident ext ctor methods getters =>
    let decls := ctor_opt_gen ctor ++ methods_gen methods ++ getters_gen getters
    "class " ++ ident ++ " " ++
      (match ext with | some c => "extends " ++ c ++ " " | none => "") ++
      "\x7b\n" ++ String.join (decls.map (fun d => d ++ "\n")) ++ "\x7d"

end

/-- A whole source file (`codegen/src/javascript/mod.rs`, struct `Code`). -/
structure Code where
  stmts : List Stmt

/-- `Gen` for `Code`: each top-level statement followed by a newline. -/
def Code.gen (c : Code) : String :=
  String.join (c.stmts.map (fun s => Stmt.gen s ++ "\n"))

end JS

/-- `gen_ref` (`rewriter/javascript.rs` lines 9-28): a scope reference path
lowers to a member-access chain starting at `this`; a `Super` segment
accesses `_super`, a named segment accesses the name. -/
def gen_ref (ms : List Member) : JS.Expr :=
  ms.foldl
    (fun expr m =>
      match m with
      | Member.Super => JS.Expr.Member expr "_super"
      | Member.Member n => JS.Expr.Member expr n)
    (JS.Expr.Var "this")

/-- The `folder` closure of `gen_context_value`: lowers a schema expression
to a code-model expression (`Lit` to a string literal, `Ref` through
`gen_ref`, `Var` to a variable, `Concat` to a parenthesized `+`). -/
def folder : Expr → JS.Expr
  | Expr.Lit s => JS.Expr.Literal (JS.Literal.String s)
  | Expr.Ref r => gen_ref r
  | Expr.Var s => JS.Expr.Var s
  | Expr.Concat l r => JS.Expr.Arith "+" (folder l) (folder r)

/-- `gen_context_value` (`rewriter/javascript.rs` lines 30-46). -/
def gen_context_value : ContextValue → JS.Expr
  | ContextValue.Expr expr => folder expr

/-- `root_constructor` (`rewriter/javascript.rs` lines 48-85): with bound
variables the constructor takes them as parameters and assigns each to
`this._{name}`; without bound variables it is a zero-argument constructor
assigning `this._url = E(root.url)`. -/
def root_constructor (root : ContextBoundedRoot) : Option JS.Constructor :=
  if root.bounded_vars.length > 0 then
    some (JS.Constructor.mk
      (root.bounded_vars.map (fun p => p.2.name))
      (root.bounded_vars.map (fun p =>
        JS.Stmt.Assign (JS.Assign.mk none
          (JS.Expr.Member (JS.Expr.Var "this") ("_" ++ p.2.name))
          (JS.Expr.Var p.2.name)))))
  else
    some (JS.Constructor.mk []
      [JS.Stmt.Assign (JS.Assign.mk none
        (JS.Expr.Member (JS.Expr.Var "this") "_url")
        (gen_context_value root.url))])

/-- `apiset_constructor` (`rewriter/javascript.rs` lines 87-125): parameters
are `_super` followed by the bound-variable names; the body assigns
`this._super = _super`, `this._url = E(url)`, then `this.{name} = {name}`
for each bound variable (the assigned member is the bare name, without an
underscore prefix). -/
def apiset_constructor (apiset : ContextBoundedAPISet) : Option JS.Constructor :=
  some (JS.Constructor.mk
    ("_super" :: apiset.bounded_vars.map (fun p => p.2.name))
    ([JS.Stmt.Assign (JS.Assign.mk none
        (JS.Expr.Member (JS.Expr.Var "this") "_super")
        (JS.Expr.Var "_super")),
      JS.Stmt.Assign (JS.Assign.mk none
        (JS.Expr.Member (JS.Expr.Var "this") "_url")
        (gen_context_value apiset.url))]
     ++ apiset.bounded_vars.map (fun p =>
        JS.Stmt.Assign (JS.Assign.mk none
          (JS.Expr.Member (JS.Expr.Var "this") p.2.name)
          (JS.Expr.Var p.2.name)))))

/-- The lower-case method string of `gen_axios_call`. -/
def method_str : HttpMethod → String
  | HttpMethod.GET => "get"
  | HttpMethod.POST => "post"
  | HttpMethod.PUT => "put"
  | HttpMethod.DELETE => "delete"
  | HttpMethod.HEAD => "head"
  | HttpMethod.OPTIONS => "options"
  | HttpMethod.PATCH => "patch"

/-- `gen_axios_call` (`rewriter/javascript.rs` lines 156-197): builds the
ordered axios config object with `method` and `url`, appending `params` and
`data` objects only when non-empty, and wraps it in a call to `axios`. -/
def gen_axios_call (url : ContextValue) (method : HttpMethod)
    (params data : List (String × Param)) : JS.Expr :=
  let url_expr := gen_context_value url
  let cfg0 := [("method", JS.Expr.Literal (JS.Literal.String (method_str method))),
               ("url", url_expr)]
  let cfg1 :=
    if params.length > 0 then
      cfg0 ++ [("params", JS.Expr.Object
        (params.map (fun p => (p.1, JS.Expr.Var p.2.name))))]
    else cfg0
  let cfg2 :=
    if data.length > 0 then
      cfg1 ++ [("data", JS.Expr.Object
        (data.map (fun p => (p.1, JS.Expr.Var p.2.name))))]
    else cfg1
  JS.Expr.FuncCall (JS.Expr.Var "axios") [JS.Expr.Object cfg2]

/-- `gen_api` (`rewriter/javascript.rs` lines 199-217): appends to the class
an async method named after the endpoint, whose parameters are the
bound-variable names in insertion order and whose body returns the axios
call. -/
def gen_api (api : ContextBoundedAPI) (kls : JS.Class) : JS.Class :=
  kls.push_method
    (JS.Method.mk api.name
      (api.bounded_vars.map (fun p => p.2.name))
      [JS.Stmt.Return (gen_axios_call api.url api.method api.params api.data)]
      true)

mutual

/-- `gen_apiset` (`rewriter/javascript.rs` lines 127-154): builds the group
class, processes the children (which may emit nested group classes first),
and appends the group's own class after them. -/
def gen_apiset (apiset : ContextBoundedAPISet) : List JS.Stmt :=
  match apiset with
  | ContextBoundedAPISet.mk name _ _ children _ =>
    let r := gen_children children
      (JS.Class.mk name none (apiset_constructor apiset) [] [])
    r.1 ++ [JS.Stmt.Class r.2]

/-- The child loops of `gen_apiset` and `gen_root`: an endpoint child adds a
method to the class under construction; a group child first emits its own
statements (post-order), then adds to the class a getter returning
`new child(this)`.  Returns the emitted statements and the finished class. -/
def gen_children : List (String × ContextBoundedAPIData) → JS.Class →
    List JS.Stmt × JS.Class
  | [], kls => ([], kls)
  | (_, ContextBoundedAPIData.API child) :: rest, kls =>
    gen_children rest (gen_api child kls)
  | (k, ContextBoundedAPIData.APISet child) :: rest, kls =>
    let stmts := gen_apiset child
    let kls1 := kls.push_getter (JS.Getter.mk k
      [JS.Stmt.Return (JS.Expr.Instantiate (JS.Expr.Var k) [JS.Expr.Var "this"])])
    let r := gen_children rest kls1
    (stmts ++ r.1, r.2)

end

/-- `gen_root` (`rewriter/javascript.rs` lines 219-252): the root class gets
its constructor, a `url` getter returning `this._url`, and the children's
methods and getters; group classes are emitted before the final
`export default` of the root class. -/
def gen_root (root : ContextBoundedRoot) : List JS.Stmt :=
  let r := gen_children root.apisets
    (JS.Class.mk root.klsname none (root_constructor root) []
      [JS.Getter.mk "url"
        [JS.Stmt.Return (JS.Expr.Member (JS.Expr.Var "this") "_url")]])
  r.1 ++ [JS.Stmt.Export true (JS.Stmt.Class r.2)]

/-- `gen` (`rewriter/javascript.rs` lines 254-263): emits
`import axios from "axios";` followed by the root emission, and renders the
code model. -/
def gen (root : ContextBoundedRoot) : String :=
  JS.Code.gen
    { stmts := JS.Stmt.Import { def_ := some "axios", imps := none, path := "axios" }
        :: gen_root root }

deriving instance DecidableEq for Except

/-- Whether `needle` is a prefix of `hay` (character lists). -/
def charsStart : List Char → List Char → Bool
  | [], _ => true
  | _ :: _, [] => false
  | a :: as, b :: bs => (a = b) && charsStart as bs

/-- Whether `needle` occurs contiguously inside `hay` (character lists). -/
def charsSub : List Char → List Char → Bool
  | needle, [] => needle.isEmpty
  | needle, c :: rest => charsStart needle (c :: rest) || charsSub needle rest

/-- Substring test on strings, used to state the spec's `the emitted output
contains ...` scenarios. -/
def strContains (hay needle : String) : Bool := charsSub needle.data hay.data

/-- The names occurring as `Var` in an expression, in left-to-right order. -/
def exprVars : Expr → List String
  | Expr.Lit _ => []
  | Expr.Var n => [n]
  | Expr.Ref _ => []
  | Expr.Concat l r => exprVars l ++ exprVars r

/-- The names occurring as `Var` across a segment list. -/
def segVars : List Expr → List String
  | [] => []
  | e :: rest => exprVars e ++ segVars rest

/-- The member name assigned by a statement of the form
`this.{member} = ...`, if it has that form. -/
def stmt_assign_member : JS.Stmt → Option String
  | JS.Stmt.Assign (JS.Assign.mk _ (JS.Expr.Member (JS.Expr.Var "this") m) _) => some m
  | _ => none

/-- The context node carried by an IR child. -/
def data_context : ContextBoundedAPIData → CtxTree
  | ContextBoundedAPIData.API a => a.context
  | ContextBoundedAPIData.APISet s => s.context

mutual

/-- Every context node in the IR subtree has empty children and empty
scope mappings. -/
def ctx_trivial : ContextBoundedAPIData → Bool
  | ContextBoundedAPIData.API a =>
    a.context.children.isEmpty && a.context.scope.isEmpty
  | ContextBoundedAPIData.APISet (ContextBoundedAPISet.mk _ _ _ children ctx) =>
    ctx.children.isEmpty && ctx.scope.isEmpty && ctx_trivial_list children

/-- `ctx_trivial` over a children mapping. -/
def ctx_trivial_list : List (String × ContextBoundedAPIData) → Bool
  | [] => true
  | (_, d) :: rest => ctx_trivial d && ctx_trivial_list rest

end

/-- The empty root schema: no URL, no children, default class name
(spec section 8, scenario 1). -/
def schemaEmpty : RootSchema := { url := none, klsname := "XSClient", apisets := [] }

/-- The IR produced for the empty root schema. -/
def rootEmpty : ContextBoundedRoot :=
  { klsname := "XSClient"
    url := ContextValue.Expr (Expr.Var "url")
    bounded_vars := [("url", Param.mk "url" (some "string"))]
    apisets := []
    context := CtxTree.mk "XSClient" [] [] }

/-- A root schema with a single endpoint child. -/
def schemaOne : RootSchema :=
  { url := none
    klsname := "R"
    apisets := [("a", APIData.API { method := "GET", params := [], data := [], url := "x" })] }

/-- The nested-group schema of spec section 8, scenario 4: a root with the
group `~users` whose URL appends `/users` to the parent URL, containing an
endpoint `get` with a `uid` parameter. -/
def schema4 : RootSchema :=
  { url := none
    klsname := "XSClient"
    apisets := [("users", APIData.APISet (APISetSchema.mk "$\x7b!super.url\x7d/users"
      [("get", APIData.API { method := "GET", params := [], data := [],
                             url := "$\x7b!super.url\x7d/<uid:int>" })]))] }

/-- A group IR node with one bound variable, used to exhibit the shape of
the emitted group constructor. -/
def exGroup : ContextBoundedAPISet :=
  ContextBoundedAPISet.mk "g" (ContextValue.Expr (Expr.Lit "u"))
    [("id", Param.mk "id" (some "int"))] [] (CtxTree.mk "g" [] [])

/-- The IR produced for `schemaOne`. -/
def rootOne : ContextBoundedRoot :=
  { klsname := "R"
    url := ContextValue.Expr (Expr.Var "url")
    bounded_vars := [("url", Param.mk "url" (some "string"))]
    apisets := [("a", ContextBoundedAPIData.API
      { name := "a", method := HttpMethod.GET, url := ContextValue.Expr (Expr.Lit "x")
        bounded_vars := [], data := [], params := [], context := CtxTree.mk "a" [] [] })]
    context := CtxTree.mk "R" [] [] }

theorem collect_fold_eq_foldl (l : List Expr) (acc : Expr) :
    collect_fold acc l = l.foldl Expr.Concat acc := by
  induction l generalizing acc with
  | nil => rfl
  | cons e rest ih => simp [collect_fold, List.foldl, ih]

/-- C1: for every input whose segment collection succeeds with segments
`[e1, ..., ek]` (`k ≥ 1`), `parse_expr` returns the left-associative fold
`Concat(Concat(Concat(e1,e2), e3), ..., ek)` of the segments (a single
segment is returned unwrapped, as the fold over an empty tail); zero
segments (in particular the empty string) yield `EmptyExpr`; and the
literal-only input `"abc"` parses to `Lit("abc")` with no bound
variables. -/
theorem C1_parse_expr_result_construction :
    (∀ s es ps, parse_segments s = Except.ok (es, ps) →
      (es = [] → parse_expr s = Except.error ParserError.EmptyExpr) ∧
      (∀ e rest, es = e :: rest →
        parse_expr s = Except.ok (rest.foldl Expr.Concat e, ps))) ∧
    parse_expr "" = Except.error ParserError.EmptyExpr ∧
    parse_expr "abc" = Except.ok (Expr.Lit "abc", []) := by
  refine ⟨?_, rfl, rfl⟩
  intro s es ps h
  constructor
  · intro he
    subst he
    simp [parse_expr, h, collect_exprs]
  · intro e rest he
    subst he
    simp [parse_expr, h, collect_exprs, collect_fold_eq_foldl]

/-- Witness for C1 at the three-segment input `abc${x}<id:int>`. -/
theorem C1_witness :
    parse_segments "abc$\x7bx\x7d<id:int>" =
      Except.ok ([Expr.Lit "abc", Expr.Ref [Member.Member "x"], Expr.Var "id"],
        [Param.mk "id" (some "int")]) ∧
    parse_expr "abc$\x7bx\x7d<id:int>" =
      Except.ok
        (Expr.Concat (Expr.Concat (Expr.Lit "abc") (Expr.Ref [Member.Member "x"]))
          (Expr.Var "id"),
         [Param.mk "id" (some "int")]) := by
  constructor
  · rfl
  · exact (C1_parse_expr_result_construction.1 "abc$\x7bx\x7d<id:int>"
      [Expr.Lit "abc", Expr.Ref [Member.Member "x"], Expr.Var "id"]
      [Param.mk "id" (some "int")] rfl).2 (Expr.Lit "abc")
      [Expr.Ref [Member.Member "x"], Expr.Var "id"] rfl

/-- C4 is false as stated: on `<a:int>x<a:string>`, which declares the
parameter `a` twice, the string-expression parser does not return
`DuplicateParam`. -/
theorem C4_counterexample :
    parse_expr "<a:int>x<a:string>" ≠
      Except.error (ParserError.DuplicateParam "a") := by
  decide

/-- C4 (amended): the string-expression parser itself performs no duplicate
check: on `<a:int>x<a:string>` it succeeds, recording both `Param`s in
order.  `DuplicateParam` arises only in the transformer, when a declared
query parameter or body field collides with an already-bound name (for
example a URL parameter). -/
theorem C4_amended_parser_accepts_duplicates :
    parse_expr "<a:int>x<a:string>" =
      Except.ok (Expr.Concat (Expr.Concat (Expr.Var "a") (Expr.Lit "x")) (Expr.Var "a"),
        [Param.mk "a" (some "int"), Param.mk "a" (some "string")]) ∧
    transform_apiset "e" (APIData.API
        { method := "GET", params := [("a", some "int")], data := [], url := "<a:int>" }) =
      Except.error (TransformerError.ParserError (ParserError.DuplicateParam "a")) :=
  ⟨rfl, rfl⟩

/-- C5 is false as stated: the mixed casings `Get` and `pAtCh` of known
methods are rejected (modelled as `none`, the Rust code panics). -/
theorem C5_counterexample :
    HttpMethod.from_str "Get" = none ∧ HttpMethod.from_str "pAtCh" = none := by
  decide

/-- C5 (amended): the method string is matched against the exact
all-lowercase and all-uppercase spellings of the seven known methods only;
each accepted spelling maps to its tag; any other string (including mixed
casings such as `Get`) makes the transformer panic — modelled as the
distinguished `Panic` error — rather than return a clean error value. -/
theorem C5_amended_exact_case_and_panic :
    (∀ s : String, (HttpMethod.from_str s).isSome ↔
      s ∈ ["get", "GET", "post", "POST", "put", "PUT", "delete", "DELETE",
           "head", "HEAD", "options", "OPTIONS", "patch", "PATCH"]) ∧
    (HttpMethod.from_str "get" = some HttpMethod.GET ∧
     HttpMethod.from_str "GET" = some HttpMethod.GET ∧
     HttpMethod.from_str "post" = some HttpMethod.POST ∧
     HttpMethod.from_str "POST" = some HttpMethod.POST ∧
     HttpMethod.from_str "put" = some HttpMethod.PUT ∧
     HttpMethod.from_str "PUT" = some HttpMethod.PUT ∧
     HttpMethod.from_str "delete" = some HttpMethod.DELETE ∧
     HttpMethod.from_str "DELETE" = some HttpMethod.DELETE ∧
     HttpMethod.from_str "head" = some HttpMethod.HEAD ∧
     HttpMethod.from_str "HEAD" = some HttpMethod.HEAD ∧
     HttpMethod.from_str "options" = some HttpMethod.OPTIONS ∧
     HttpMethod.from_str "OPTIONS" = some HttpMethod.OPTIONS ∧
     HttpMethod.from_str "patch" = some HttpMethod.PATCH ∧
     HttpMethod.from_str "PATCH" = some HttpMethod.PATCH) ∧
    transform_apiset "e" (APIData.API
        { method := "Get", params := [], data := [], url := "x" }) =
      Except.error (TransformerError.Panic "Caught unsupported HTTP method: Get") := by
  refine ⟨?_, by decide, rfl⟩
  intro s
  unfold HttpMethod.from_str
  split_ifs <;> simp_all <;> tauto

/-- C6 is false as stated: for a group with bound variable `id`, the third
constructor statement assigns to the member `id`, not to an
underscore-prefixed `_id`. -/
theorem C6_counterexample :
    (apiset_constructor exGroup).map (fun c => c.stmts.map stmt_assign_member) =
      some [some "_super", some "_url", some "id"] ∧ ("id" : String) ≠ "_id" :=
  ⟨rfl, by decide⟩

/-- C6 (amended): the group constructor's parameters are `_super` followed
by the bound-variable names in insertion order, and its body assigns
`this._super = _super`, then `this._url = E(group.url)`, then one
assignment `this.{name} = {name}` per bound variable in insertion order —
the assigned field is the bare name, with no underscore prefix (unlike the
root constructor, which assigns `this._{name}`). -/
theorem C6_amended_group_constructor_shape :
    (∀ a : ContextBoundedAPISet,
      apiset_constructor a = some (JS.Constructor.mk
        ("_super" :: a.bounded_vars.map (fun p => p.2.name))
        ([JS.Stmt.Assign (JS.Assign.mk none
            (JS.Expr.Member (JS.Expr.Var "this") "_super") (JS.Expr.Var "_super")),
          JS.Stmt.Assign (JS.Assign.mk none
            (JS.Expr.Member (JS.Expr.Var "this") "_url") (gen_context_value a.url))]
         ++ a.bounded_vars.map (fun p => JS.Stmt.Assign (JS.Assign.mk none
              (JS.Expr.Member (JS.Expr.Var "this") p.2.name) (JS.Expr.Var p.2.name)))))) ∧
    (apiset_constructor exGroup).map JS.Constructor.gen =
      some "constructor(_super, id) \x7b\nthis._super = _super;\nthis._url = \"u\";\nthis.id = id;\n\x7d" :=
  ⟨fun _ => rfl, rfl⟩

theorem transform_ok_inv (s : RootSchema) (r : ContextBoundedRoot)
    (h : transform s = Except.ok r) :
    r.klsname = s.klsname ∧ r.context = CtxTree.mk s.klsname [] [] ∧
    transform_children s.apisets = Except.ok r.apisets ∧
    (s.url = none → r.url = ContextValue.Expr (Expr.Var "url") ∧
      r.bounded_vars = [("url", Param.mk "url" (some "string"))]) := by
  unfold transform at h
  split at h
  · exact absurd h (by simp)
  · rename_i p hurl
    split at h
    · exact absurd h (by simp)
    · rename_i cs hcs
      cases h
      refine ⟨rfl, rfl, hcs, ?_⟩
      intro hnone
      rw [hnone] at hurl
      simp only [Except.ok.injEq, Prod.mk.injEq] at hurl
      obtain ⟨h1, h2⟩ := hurl
      subst h1
      subst h2
      exact ⟨rfl, rfl⟩

mutual

theorem transform_apiset_ctx_trivial (n : String) (d : APIData)
    (res : ContextBoundedAPIData) (h : transform_apiset n d = Except.ok res) :
    ctx_trivial res = true := by
  cases d with
  | API schema =>
    simp only [transform_apiset] at h
    split at h
    · exact absurd h (by simp)
    · split at h
      · exact absurd h (by simp)
      · split at h
        · exact absurd h (by simp)
        · split at h
          · exact absurd h (by simp)
          · cases h
            rfl
  | APISet s =>
    cases s with
    | mk u children =>
      simp only [transform_apiset] at h
      split at h
      · exact absurd h (by simp)
      · rename_i cs hcs
        split at h
        · exact absurd h (by simp)
        · cases h
          have h2 := transform_children_ctx_trivial children cs hcs
          simp [ctx_trivial, ctx_trivial_list, CtxTree.children, CtxTree.scope,
            List.isEmpty, h2]

theorem transform_children_ctx_trivial (l : List (String × APIData))
    (res : List (String × ContextBoundedAPIData))
    (h : transform_children l = Except.ok res) :
    ctx_trivial_list res = true := by
  cases l with
  | nil =>
    simp only [transform_children] at h
    cases h
    rfl
  | cons p rest =>
    cases p with
    | mk k v =>
      simp only [transform_children] at h
      split at h
      · exact absurd h (by simp)
      · rename_i child heq
        split at h
        · exact absurd h (by simp)
        · rename_i cs heq2
          cases h
          have h1 := transform_apiset_ctx_trivial k v child heq
          have h2 := transform_children_ctx_trivial rest cs heq2
          simp [ctx_trivial_list, h1, h2]

end

/-- C7 is false as stated: the claimed class text requires the member chain
`this._super._url` (e.g. in `this._url = (this._super._url) + ("/users")`),
but the rewriter lowers `Ref([Super, Member("url")])` to `this._super.url`
(the bare member name), so the emitted source for the nested-group schema
never contains `._super._url`. -/
theorem C7_counterexample :
    (transform schema4).map (fun r => strContains (gen r) "._super._url") =
      Except.ok false := rfl

/-- C7 (amended): for the nested-group schema the emitted source is exactly
the string below: the top-level `class users` (constructor assigning
`this._super = _super` and `this._url = (this._super.url) + ("/users")`,
then `async get(uid)` returning
`axios({ method: "get", url: ((this._super.url) + ("/")) + (uid) })`)
is emitted before the root class, members are separated by newlines, the
parent URL is referenced as `this._super.url` (bare member, the getter
`url` resolving it at runtime), nested concatenation is parenthesized as
`((a) + (b)) + (c)`, and the root class has the getter
`get users() { return new users(this); }`. -/
theorem C7_amended_nested_group_emission :
    (transform schema4).map gen = Except.ok
      ("import axios from \"axios\";\nclass users \x7b\nconstructor(_super) \x7b\nthis._super = _super;\nthis._url = (this._super.url) + (\"/users\");\n\x7d\nasync get(uid) \x7b\nreturn axios(\x7b method: \"get\", url: ((this._super.url) + (\"/\")) + (uid) \x7d);\n\x7d\n\x7d\nexport default class XSClient \x7b\nconstructor(url) \x7b\nthis._url = url;\n\x7d\nget url() \x7b\nreturn this._url;\n\x7d\nget users() \x7b\nreturn new users(this);\n\x7d\n\x7d\n") ∧
    (transform schema4).map (fun r =>
      strContains (gen r) "get users() \x7b\nreturn new users(this);\n\x7d") =
      Except.ok true := ⟨rfl, rfl⟩

/-- C8: a root schema without `$url` gets the synthesized URL expression
`Var("url")` and the single bound variable `Param{name:"url",
type:"string"}`; consequently the emission for the empty schema contains
`import axios from "axios";` and the root class
`export default class XSClient { constructor(url) { this._url = url; }
get url() { return this._url; } }` with newlines between members. -/
theorem C8_root_url_synthesis :
    (∀ s r, s.url = none → transform s = Except.ok r →
      r.url = ContextValue.Expr (Expr.Var "url") ∧
      r.bounded_vars = [("url", Param.mk "url" (some "string"))]) ∧
    (transform schemaEmpty).map (fun r =>
      (strContains (gen r) "import axios from \"axios\";",
       strContains (gen r) "export default class XSClient \x7b\nconstructor(url) \x7b\nthis._url = url;\n\x7d\nget url() \x7b\nreturn this._url;\n\x7d\n\x7d")) =
      Except.ok (true, true) := by
  refine ⟨?_, rfl⟩
  intro s r hu ht
  exact (transform_ok_inv s r ht).2.2.2 hu

/-- Witness for C8 at the empty schema. -/
theorem C8_witness :
    ContextBoundedRoot.url rootEmpty = ContextValue.Expr (Expr.Var "url") ∧
    ContextBoundedRoot.bounded_vars rootEmpty =
      [("url", Param.mk "url" (some "string"))] :=
  C8_root_url_synthesis.1 schemaEmpty rootEmpty rfl rfl

/-- C9 is false as stated: for a schema with one endpoint child, the root IR
node's children mapping has key list `["a"]` while the root context node's
children mapping is empty, so the key sets differ. -/
theorem C9_counterexample :
    (transform schemaOne).map (fun r =>
      (r.apisets.map (fun p => p.1),
       (ContextBoundedRoot.context r).children.map (fun p => p.1))) =
      Except.ok (["a"], []) := rfl

/-- C9 (amended): the transformer never appends child contexts to a parent
context's children mapping (`add_child` is never called during the walk), so
the `children` mapping of every context node in a transformer-built tree is
empty; the claimed key-set and order identity with the IR children mapping
holds only for nodes without children. -/
theorem C9_amended_context_children_empty :
    ∀ s r, transform s = Except.ok r →
      (ContextBoundedRoot.context r).children = [] ∧
      ctx_trivial_list r.apisets = true := by
  intro s r h
  obtain ⟨-, hctx, hch, -⟩ := transform_ok_inv s r h
  exact ⟨by rw [hctx]; rfl, transform_children_ctx_trivial _ _ hch⟩

/-- Witness for C9 (amended) at `schemaOne`. -/
theorem C9_witness :
    (ContextBoundedRoot.context rootOne).children = [] ∧
    ctx_trivial_list rootOne.apisets = true :=
  C9_amended_context_children_empty schemaOne rootOne rfl

/-- C10: every context node built by the transformer has an empty local
scope (and empty children); hence on a transformer-built tree a lookup of
`["!super", "url"]` from any child of the root climbs to the root, finds
`url` neither in the (empty) scope nor among the (empty) children, and
returns `NoSuchMember{"url", [root name]}` — even though group and endpoint
URLs default to `${!super.url}`. -/
theorem C10_transformer_scopes_empty :
    ∀ s r, transform s = Except.ok r →
      ((ContextBoundedRoot.context r).scope = [] ∧
       ctx_trivial_list r.apisets = true) ∧
      (∀ k node, (k, node) ∈ r.apisets →
        lookupCtx [r.context] (data_context node) ["!super", "url"] =
          Except.error (ContextLookupError.NoSuchMember "url" [r.klsname])) := by
  intro s r h
  obtain ⟨hkls, hctx, hch, -⟩ := transform_ok_inv s r h
  refine ⟨⟨by rw [hctx]; rfl, transform_children_ctx_trivial _ _ hch⟩, ?_⟩
  intro k node _
  rw [hctx, hkls]
  simp [lookupCtx, scope_get, child_get, ctx_path, CtxTree.scope,
    CtxTree.children, CtxTree.name]

/-- Witness for C10 at `schemaOne`: lookup of `["!super", "url"]` from the
endpoint child of the root. -/
theorem C10_witness :
    lookupCtx [ContextBoundedRoot.context rootOne]
      (data_context (ContextBoundedAPIData.API
        { name := "a", method := HttpMethod.GET, url := ContextValue.Expr (Expr.Lit "x")
          bounded_vars := [], data := [], params := [], context := CtxTree.mk "a" [] [] }))
      ["!super", "url"] =
      Except.error (ContextLookupError.NoSuchMember "url" ["R"]) :=
  (C10_transformer_scopes_empty schemaOne rootOne rfl).2 "a"
    (ContextBoundedAPIData.API
      { name := "a", method := HttpMethod.GET, url := ContextValue.Expr (Expr.Lit "x")
        bounded_vars := [], data := [], params := [], context := CtxTree.mk "a" [] [] })
    (by simp [rootOne])

/-- C3: the five-step lookup protocol of `Context::lookup`: an empty path
yields `EmptyKey{context_path}`; a leading `!super` delegates to the parent,
or yields `NoSuchMember{"!super", context_path}` when there is no parent
(in particular at the root); otherwise a head key in the local scope
returns the value for a length-1 path and `LookupOnValue{key, value}` for a
longer path; otherwise a head key naming a child recurses into that child
with the rest of the path; otherwise `NoSuchMember{key, context_path}`.
The embedding is a pure function of the tree, so lookup cannot mutate it. -/
theorem C3_lookup_protocol :
    (∀ ancs node, lookupCtx ancs node [] =
      Except.error (ContextLookupError.EmptyKey (ctx_path ancs node))) ∧
    (∀ node rest, lookupCtx [] node ("!super" :: rest) =
      Except.error (ContextLookupError.NoSuchMember "!super" (ctx_path [] node))) ∧
    (∀ p ancs node rest, lookupCtx (p :: ancs) node ("!super" :: rest) =
      lookupCtx ancs p rest) ∧
    (∀ ancs node k v, k ≠ "!super" → scope_get node.scope k = some v →
      lookupCtx ancs node [k] = Except.ok v) ∧
    (∀ ancs node k v r rest, k ≠ "!super" → scope_get node.scope k = some v →
      lookupCtx ancs node (k :: r :: rest) =
        Except.error (ContextLookupError.LookupOnValue k v)) ∧
    (∀ ancs node k c rest, k ≠ "!super" → scope_get node.scope k = none →
      child_get node.children k = some c →
      lookupCtx ancs node (k :: rest) = lookupCtx (node :: ancs) c rest) ∧
    (∀ ancs node k rest, k ≠ "!super" → scope_get node.scope k = none →
      child_get node.children k = none →
      lookupCtx ancs node (k :: rest) =
        Except.error (ContextLookupError.NoSuchMember k (ctx_path ancs node))) := by
  refine ⟨fun ancs node => rfl, fun node rest => by simp [lookupCtx],
    fun p ancs node rest => by simp [lookupCtx], ?_, ?_, ?_, ?_⟩
  · intro ancs node k v hk hs
    simp [lookupCtx, hk, hs]
  · intro ancs node k v r rest hk hs
    simp [lookupCtx, hk, hs]
  · intro ancs node k c rest hk hs hc
    simp [lookupCtx, hk, hs, hc]
  · intro ancs node k rest hk hs hc
    simp [lookupCtx, hk, hs, hc]

/-- Witness for C3: the scope hit with a longer path yields `LookupOnValue`,
and descent into a child resolves a scope value there. -/
theorem C3_witness :
    lookupCtx [] (CtxTree.mk "n" [] [("k", ContextValue.Expr (Expr.Lit "w"))])
      ["k", "x"] =
      Except.error (ContextLookupError.LookupOnValue "k"
        (ContextValue.Expr (Expr.Lit "w"))) ∧
    lookupCtx [] (CtxTree.mk "root"
        [("c", CtxTree.mk "c" [] [("k", ContextValue.Expr (Expr.Lit "v"))])] [])
      ["c", "k"] =
      Except.ok (ContextValue.Expr (Expr.Lit "v")) := by
  constructor
  · exact (C3_lookup_protocol.2.2.2.2.1)
      [] (CtxTree.mk "n" [] [("k", ContextValue.Expr (Expr.Lit "w"))])
      "k" (ContextValue.Expr (Expr.Lit "w")) "x" [] (by decide) rfl
  · have h := (C3_lookup_protocol.2.2.2.2.2.1)
      [] (CtxTree.mk "root"
        [("c", CtxTree.mk "c" [] [("k", ContextValue.Expr (Expr.Lit "v"))])] [])
      "c" (CtxTree.mk "c" [] [("k", ContextValue.Expr (Expr.Lit "v"))]) ["k"]
      (by decide) rfl rfl
    rw [h]
    exact (C3_lookup_protocol.2.2.2.1)
      [CtxTree.mk "root"
        [("c", CtxTree.mk "c" [] [("k", ContextValue.Expr (Expr.Lit "v"))])] []]
      (CtxTree.mk "c" [] [("k", ContextValue.Expr (Expr.Lit "v"))])
      "k" (ContextValue.Expr (Expr.Lit "v")) (by decide) rfl

theorem segVars_append (a b : List Expr) :
    segVars (a ++ b) = segVars a ++ segVars b := by
  induction a with
  | nil => rfl
  | cons e rest ih => simp [segVars, ih]

theorem exprVars_collect_fold (l : List Expr) (acc : Expr) :
    exprVars (collect_fold acc l) = exprVars acc ++ segVars l := by
  induction l generalizing acc with
  | nil => simp [collect_fold, segVars]
  | cons e rest ih => simp [collect_fold, ih, exprVars, segVars]

theorem parse_ref_loop_vars (cs : List Char) :
    ∀ pos ip idents curr e p r,
      parse_ref_loop pos cs ip idents curr = Except.ok (e, p, r) →
      exprVars e = [] := by
  induction cs with
  | nil =>
    intro pos ip idents curr e p r h
    exact Except.noConfusion h
  | cons c rest ih =>
    intro pos ip idents curr e p r h
    simp only [parse_ref_loop] at h
    split_ifs at h <;>
    first
    | exact Except.noConfusion h
    | (simp only [Except.ok.injEq, Prod.mk.injEq] at h
       obtain ⟨h1, -, -⟩ := h
       subst h1
       simp [exprVars])
    | exact ih _ _ _ _ _ _ _ h

theorem parse_ref_vars (cs : List Char) (pos : Nat) (e : Expr) (p : Nat)
    (r : List Char) (h : parse_ref cs pos = Except.ok (e, p, r)) :
    exprVars e = [] := by
  unfold parse_ref at h
  split at h
  · exact Except.noConfusion h
  · split_ifs at h <;>
    first
    | exact Except.noConfusion h
    | exact parse_ref_loop_vars _ _ _ _ _ _ _ _ h

theorem parse_param_shape (cs : List Char) (pos : Nat) (e : Expr) (par : Param)
    (p : Nat) (r : List Char)
    (h : parse_param cs pos = Except.ok (e, par, p, r)) :
    e = Expr.Var par.name := by
  unfold parse_param at h
  split at h
  · exact Except.noConfusion h
  · split_ifs at h <;>
    first
    | exact Except.noConfusion h
    | (simp only [Except.ok.injEq, Prod.mk.injEq] at h
       obtain ⟨h1, h2, -⟩ := h
       subst h1
       subst h2
       rfl)

theorem parse_expr_loop_vars (fuel : Nat) :
    ∀ cs i exprs params curr es ps,
      parse_expr_loop fuel cs i exprs params curr = Except.ok (es, ps) →
      ∃ nps, ps = params ++ nps ∧
        segVars es = segVars exprs ++ nps.map Param.name := by
  induction fuel with
  | zero =>
    intro cs i exprs params curr es ps h
    exact Except.noConfusion h
  | succ fuel ih =>
    intro cs i exprs params curr es ps h
    cases cs with
    | nil =>
      simp only [parse_expr_loop] at h
      split_ifs at h <;>
        (simp only [Except.ok.injEq, Prod.mk.injEq] at h
         exact ⟨[], by rw [← h.2]; simp,
           by rw [← h.1]; simp [segVars_append, segVars, exprVars]⟩)
    | cons c rest =>
      simp only [parse_expr_loop] at h
      split_ifs at h <;>
      first
      | (split at h <;>
         first
         | exact Except.noConfusion h
         | (rename_i heq
            obtain ⟨nps, hps, hvars⟩ := ih _ _ _ _ _ _ _ h
            have hz := parse_ref_vars _ _ _ _ _ heq
            exact ⟨nps, hps, by
              rw [hvars]
              simp [segVars_append, segVars, exprVars, hz]⟩)
         | (rename_i heq
            obtain ⟨nps, hps, hvars⟩ := ih _ _ _ _ _ _ _ h
            have hv := parse_param_shape _ _ _ _ _ _ heq
            exact ⟨_ :: nps, by simpa using hps, by
              rw [hvars]
              subst hv
              simp [segVars_append, segVars, exprVars]⟩))
      | (cases rest with
         | nil => exact Except.noConfusion h
         | cons c2 rest2 => exact ih _ _ _ _ _ _ _ h)
      | exact ih _ _ _ _ _ _ _ h

theorem parse_expr_vars (s : String) (e : Expr) (ps : List Param)
    (h : parse_expr s = Except.ok (e, ps)) :
    exprVars e = ps.map Param.name := by
  cases hseg : parse_segments s with
  | error err =>
    have hpe : parse_expr s = Except.error err := by
      unfold parse_expr
      rw [hseg]
    rw [h] at hpe
    exact Except.noConfusion hpe
  | ok v =>
    obtain ⟨es, ps0⟩ := v
    have heq2 : parse_expr_loop (s.data.length + 1) s.data 0 [] [] "" =
        Except.ok (es, ps0) := hseg
    obtain ⟨nps, hps, hvars⟩ := parse_expr_loop_vars _ _ _ _ _ _ _ _ heq2
    cases es with
    | nil =>
      have hpe : parse_expr s = Except.error ParserError.EmptyExpr := by
        unfold parse_expr
        rw [hseg]
        rfl
      rw [h] at hpe
      exact Except.noConfusion hpe
    | cons e0 esrest =>
      have hpe : parse_expr s = Except.ok (collect_fold e0 esrest, ps0) := by
        unfold parse_expr
        rw [hseg]
        rfl
      rw [h] at hpe
      simp only [Except.ok.injEq, Prod.mk.injEq] at hpe
      obtain ⟨he, hpse⟩ := hpe
      rw [he, exprVars_collect_fold, hpse]
      simp only [segVars, List.nil_append] at hvars hps
      rw [hps]
      exact hvars

theorem lhm_keys_append (a b : List (String × Param)) :
    lhm_keys (a ++ b) = lhm_keys a ++ lhm_keys b := by
  simp [lhm_keys]

theorem lhm_keys_map_pairs (l : List (String × Option String)) :
    lhm_keys (l.map (fun p => (p.1, Param.mk p.1 p.2))) = l.map Prod.fst := by
  simp only [lhm_keys, List.map_map]
  rfl

theorem lhm_insert_not_mem (m : List (String × Param)) (k : String) (v : Param)
    (h : k ∉ lhm_keys m) : lhm_insert m k v = (m ++ [(k, v)], none) := by
  induction m with
  | nil => rfl
  | cons p rest ih =>
    obtain ⟨k0, v0⟩ := p
    simp only [lhm_keys, List.map_cons, List.mem_cons, not_or] at h
    have hne : ¬ k0 = k := fun hh => h.1 hh.symm
    have hrest := ih (by simpa [lhm_keys] using h.2)
    simp [lhm_insert, hne, hrest]

theorem lhm_insert_snd_some_of_mem (m : List (String × Param)) (k : String)
    (v : Param) (h : k ∈ lhm_keys m) :
    ∃ old, (lhm_insert m k v).2 = some old := by
  induction m with
  | nil => simp [lhm_keys] at h
  | cons p rest ih =>
    obtain ⟨k0, v0⟩ := p
    by_cases hk : k0 = k
    · exact ⟨v0, by simp [lhm_insert, hk]⟩
    · have hmem : k ∈ lhm_keys rest := by
        simp only [lhm_keys, List.map_cons, List.mem_cons] at h
        rcases h with h | h
        · exact absurd h.symm hk
        · simpa [lhm_keys] using h
      obtain ⟨old, hold⟩ := ih hmem
      exact ⟨old, by simp [lhm_insert, hk, hold]⟩

theorem lhm_insert_keys_of_mem (m : List (String × Param)) (k : String)
    (v : Param) (h : k ∈ lhm_keys m) :
    lhm_keys (lhm_insert m k v).1 = lhm_keys m := by
  induction m with
  | nil => simp [lhm_keys] at h
  | cons p rest ih =>
    obtain ⟨k0, v0⟩ := p
    by_cases hk : k0 = k
    · simp [lhm_insert, hk, lhm_keys]
    · have hmem : k ∈ lhm_keys rest := by
        simp only [lhm_keys, List.map_cons, List.mem_cons] at h
        rcases h with h | h
        · exact absurd h.symm hk
        · simpa [lhm_keys] using h
      have hrec := ih hmem
      simp only [lhm_insert, if_neg hk]
      simp only [lhm_keys, List.map_cons] at hrec ⊢
      rw [hrec]

theorem mem_lhm_insert_keys (m : List (String × Param)) (k : String) (v : Param)
    (n : String) :
    n ∈ lhm_keys (lhm_insert m k v).1 ↔ n ∈ lhm_keys m ∨ n = k := by
  by_cases h : k ∈ lhm_keys m
  · rw [lhm_insert_keys_of_mem m k v h]
    constructor
    · exact Or.inl
    · rintro (hn | hn)
      · exact hn
      · rw [hn]; exact h
  · rw [lhm_insert_not_mem m k v h, lhm_keys_append]
    simp [lhm_keys]

theorem lhm_insert_keys_nodup (m : List (String × Param)) (k : String) (v : Param)
    (h : (lhm_keys m).Nodup) : (lhm_keys (lhm_insert m k v).1).Nodup := by
  by_cases hk : k ∈ lhm_keys m
  · rw [lhm_insert_keys_of_mem m k v hk]; exact h
  · rw [lhm_insert_not_mem m k v hk, lhm_keys_append]
    refine List.Nodup.append h (by simp [lhm_keys]) ?_
    intro a ha hb
    have hb2 : a = k := by simpa [lhm_keys] using hb
    rw [hb2] at ha
    exact hk ha

theorem paramsToLHM_go_mem (ps : List Param) :
    ∀ m n, n ∈ lhm_keys (ps.foldl (fun m p => (lhm_insert m p.name p).1) m) ↔
      n ∈ lhm_keys m ∨ n ∈ ps.map Param.name := by
  induction ps with
  | nil => simp
  | cons p rest ih =>
    intro m n
    simp only [List.foldl_cons, List.map_cons, List.mem_cons]
    rw [ih, mem_lhm_insert_keys]
    tauto

theorem paramsToLHM_mem (ps : List Param) (n : String) :
    n ∈ lhm_keys (paramsToLHM ps) ↔ n ∈ ps.map Param.name := by
  rw [paramsToLHM, paramsToLHM_go_mem]
  simp [lhm_keys]

theorem paramsToLHM_go_nodup (ps : List Param) :
    ∀ m, (lhm_keys m).Nodup →
      (lhm_keys (ps.foldl (fun m p => (lhm_insert m p.name p).1) m)).Nodup := by
  induction ps with
  | nil => intro m h; exact h
  | cons p rest ih =>
    intro m h
    exact ih _ (lhm_insert_keys_nodup m p.name p h)

theorem paramsToLHM_nodup (ps : List Param) :
    (lhm_keys (paramsToLHM ps)).Nodup := by
  rw [paramsToLHM]
  exact paramsToLHM_go_nodup ps [] (by simp [lhm_keys])

theorem merge_params_ok (l : List (String × Option String)) :
    ∀ bv bv2, merge_params bv l = Except.ok bv2 →
      bv2 = bv ++ l.map (fun p => (p.1, Param.mk p.1 p.2)) ∧
      (∀ n, n ∈ l.map Prod.fst → n ∉ lhm_keys bv) ∧
      (l.map Prod.fst).Nodup := by
  induction l with
  | nil =>
    intro bv bv2 h
    simp only [merge_params, Except.ok.injEq] at h
    simp [← h]
  | cons p rest ih =>
    intro bv bv2 h
    obtain ⟨n, t⟩ := p
    simp only [merge_params] at h
    split at h
    · exact Except.noConfusion h
    · rename_i hnone
      by_cases hmem : n ∈ lhm_keys bv
      · obtain ⟨old, hold⟩ := lhm_insert_snd_some_of_mem bv n (Param.mk n t) hmem
        rw [hold] at hnone
        exact Option.noConfusion hnone
      · rw [lhm_insert_not_mem bv n (Param.mk n t) hmem] at h
        obtain ⟨hshape, hfresh, hnodup⟩ := ih _ _ h
        refine ⟨by simpa using hshape, ?_, ?_⟩
        · intro n2 hn2
          simp only [List.map_cons, List.mem_cons] at hn2
          rcases hn2 with hn2 | hn2
          · rw [hn2]; exact hmem
          · intro hbv
            apply hfresh n2 hn2
            show n2 ∈ lhm_keys (bv ++ [(n, Param.mk n t)])
            rw [lhm_keys_append]
            exact List.mem_append.mpr (Or.inl hbv)
        · simp only [List.map_cons, List.nodup_cons, hnodup, and_true]
          intro hmem2
          apply hfresh n hmem2
          show n ∈ lhm_keys (bv ++ [(n, Param.mk n t)])
          rw [lhm_keys_append]
          refine List.mem_append.mpr (Or.inr ?_)
          simp [lhm_keys]

theorem merge_params_error_inv (l : List (String × Option String)) :
    ∀ bv err, merge_params bv l = Except.error err →
      (l.map Prod.fst).Nodup →
      ∃ dup, err = TransformerError.ParserError (ParserError.DuplicateParam dup) ∧
        dup ∈ l.map Prod.fst ∧ dup ∈ lhm_keys bv := by
  induction l with
  | nil =>
    intro bv err h _
    exact Except.noConfusion h
  | cons p rest ih =>
    intro bv err h hnodup
    obtain ⟨n, t⟩ := p
    simp only [merge_params] at h
    split at h
    · rename_i old hsome
      by_cases hmem : n ∈ lhm_keys bv
      · simp only [Except.error.injEq] at h
        exact ⟨n, h.symm, by simp, hmem⟩
      · rw [lhm_insert_not_mem bv n (Param.mk n t) hmem] at hsome
        exact Option.noConfusion hsome
    · rename_i hnone
      by_cases hmem : n ∈ lhm_keys bv
      · obtain ⟨old, hold⟩ := lhm_insert_snd_some_of_mem bv n (Param.mk n t) hmem
        rw [hold] at hnone
        exact Option.noConfusion hnone
      · rw [lhm_insert_not_mem bv n (Param.mk n t) hmem] at h
        simp only [List.map_cons, List.nodup_cons] at hnodup
        obtain ⟨dup, herr, hdl, hdbv⟩ := ih _ _ h hnodup.2
        have hdbv2 : dup ∈ lhm_keys (bv ++ [(n, Param.mk n t)]) := hdbv
        rw [lhm_keys_append] at hdbv2
        refine ⟨dup, herr, by simp [hdl], ?_⟩
        rcases List.mem_append.mp hdbv2 with hd | hd
        · exact hd
        · have : dup = n := by simpa [lhm_keys] using hd
          rw [this] at hdl
          exact absurd hdl hnodup.1

/-- C2: for every endpoint schema node whose URL parses (with bound
variables `uvars`) and whose query/body mappings have the unique keys a
`LinkedHashMap` guarantees, (a) on success the bound-variables mapping is
the URL expression's parameters followed by all declared query parameters,
then all declared body fields, in insertion order; its key list has no
repeats and its key set is the union of the `Var` names of the URL
expression, the query-parameter keys and the body-field keys; and (b) if
any name occurs in more than one of these three sources, the transformer
fails with `DuplicateParam` for a name occurring in two of the sources. -/
theorem C2_endpoint_bound_vars :
    ∀ name schema expr uvars,
      parse_expr schema.url = Except.ok (expr, uvars) →
      (schema.params.map Prod.fst).Nodup →
      (schema.data.map Prod.fst).Nodup →
      ((∀ res, transform_apiset name (APIData.API schema) = Except.ok res →
        ∃ api, res = ContextBoundedAPIData.API api ∧
          api.bounded_vars = paramsToLHM uvars
            ++ schema.params.map (fun p => (p.1, Param.mk p.1 p.2))
            ++ schema.data.map (fun p => (p.1, Param.mk p.1 p.2)) ∧
          (lhm_keys api.bounded_vars).Nodup ∧
          (∀ n, n ∈ lhm_keys api.bounded_vars ↔
            n ∈ exprVars expr ∨ n ∈ schema.params.map Prod.fst ∨
            n ∈ schema.data.map Prod.fst)) ∧
      (∀ n, ((n ∈ exprVars expr ∧ n ∈ schema.params.map Prod.fst) ∨
             ((n ∈ exprVars expr ∨ n ∈ schema.params.map Prod.fst) ∧
              n ∈ schema.data.map Prod.fst)) →
        ∃ dup, transform_apiset name (APIData.API schema) =
            Except.error (TransformerError.ParserError
              (ParserError.DuplicateParam dup)) ∧
          ((dup ∈ exprVars expr ∧ dup ∈ schema.params.map Prod.fst) ∨
           ((dup ∈ exprVars expr ∨ dup ∈ schema.params.map Prod.fst) ∧
            dup ∈ schema.data.map Prod.fst)))) := by
  intro name schema expr uvars hparse hnp hnd
  have hvarseq := parse_expr_vars schema.url expr uvars hparse
  have hkeyvars : ∀ n, n ∈ lhm_keys (paramsToLHM uvars) ↔ n ∈ exprVars expr := by
    intro n
    rw [paramsToLHM_mem, hvarseq]
  have htrans : transform_apiset name (APIData.API schema) =
      (match merge_params (paramsToLHM uvars) schema.params with
       | Except.error e => Except.error e
       | Except.ok bv1 =>
         match merge_params bv1 schema.data with
         | Except.error e => Except.error e
         | Except.ok bv2 =>
           match HttpMethod.from_str schema.method with
           | none => Except.error (TransformerError.Panic
               ("Caught unsupported HTTP method: " ++ schema.method))
           | some m =>
             Except.ok (ContextBoundedAPIData.API
               { name := name, method := m, url := ContextValue.Expr expr,
                 bounded_vars := bv2,
                 data := schema.data.map (fun p => (p.1, Param.mk p.1 p.2)),
                 params := schema.params.map (fun p => (p.1, Param.mk p.1 p.2)),
                 context := CtxTree.mk name [] [] })) := by
    simp only [transform_apiset]
    rw [hparse]
  constructor
  · intro res hres
    rw [htrans] at hres
    split at hres
    · exact Except.noConfusion hres
    · rename_i bv1 hm1
      split at hres
      · exact Except.noConfusion hres
      · rename_i bv2 hm2
        split at hres
        · exact Except.noConfusion hres
        · rename_i m hms
          simp only [Except.ok.injEq] at hres
          obtain ⟨hs1, hf1, -⟩ := merge_params_ok _ _ _ hm1
          obtain ⟨hs2, hf2, -⟩ := merge_params_ok _ _ _ hm2
          have hkeys1 : lhm_keys bv1 =
              lhm_keys (paramsToLHM uvars) ++ schema.params.map Prod.fst := by
            rw [hs1, lhm_keys_append, lhm_keys_map_pairs]
          have hkeys2 : lhm_keys bv2 =
              lhm_keys (paramsToLHM uvars) ++ schema.params.map Prod.fst
                ++ schema.data.map Prod.fst := by
            rw [hs2, lhm_keys_append, lhm_keys_map_pairs, hkeys1]
          have hd1 : List.Disjoint (lhm_keys (paramsToLHM uvars))
              (schema.params.map Prod.fst) := by
            intro a ha hb
            exact hf1 a hb ha
          have hd2 : List.Disjoint
              (lhm_keys (paramsToLHM uvars) ++ schema.params.map Prod.fst)
              (schema.data.map Prod.fst) := by
            intro a ha hb
            apply hf2 a hb
            rw [hkeys1]
            exact ha
          refine ⟨{ name := name, method := m, url := ContextValue.Expr expr,
                    bounded_vars := bv2,
                    data := schema.data.map (fun p => (p.1, Param.mk p.1 p.2)),
                    params := schema.params.map (fun p => (p.1, Param.mk p.1 p.2)),
                    context := CtxTree.mk name [] [] },
                  hres.symm, ?_, ?_, ?_⟩
          · rw [hs2, hs1]
          · show (lhm_keys bv2).Nodup
            rw [hkeys2]
            exact List.Nodup.append
              (List.Nodup.append (paramsToLHM_nodup uvars) hnp hd1) hnd hd2
          · intro n
            show n ∈ lhm_keys bv2 ↔ _
            rw [hkeys2]
            simp only [List.mem_append]
            have ha := hkeyvars n
            tauto
  · intro n hconf
    cases hm1 : merge_params (paramsToLHM uvars) schema.params with
    | error err =>
      obtain ⟨dup, herr, hdl, hdbv⟩ := merge_params_error_inv _ _ _ hm1 hnp
      refine ⟨dup, ?_, Or.inl ⟨(hkeyvars dup).mp hdbv, hdl⟩⟩
      rw [htrans, hm1, herr]
    | ok bv1 =>
      obtain ⟨hs1, hf1, -⟩ := merge_params_ok _ _ _ hm1
      have hkeys1 : lhm_keys bv1 =
          lhm_keys (paramsToLHM uvars) ++ schema.params.map Prod.fst := by
        rw [hs1, lhm_keys_append, lhm_keys_map_pairs]
      have htrans2 : transform_apiset name (APIData.API schema) =
          (match merge_params bv1 schema.data with
           | Except.error e => Except.error e
           | Except.ok bv2 =>
             match HttpMethod.from_str schema.method with
             | none => Except.error (TransformerError.Panic
                 ("Caught unsupported HTTP method: " ++ schema.method))
             | some m =>
               Except.ok (ContextBoundedAPIData.API
                 { name := name, method := m, url := ContextValue.Expr expr,
                   bounded_vars := bv2,
                   data := schema.data.map (fun p => (p.1, Param.mk p.1 p.2)),
                   params := schema.params.map (fun p => (p.1, Param.mk p.1 p.2)),
                   context := CtxTree.mk name [] [] })) := by
        rw [htrans, hm1]
      cases hm2 : merge_params bv1 schema.data with
      | error err =>
        obtain ⟨dup, herr, hdl, hdbv⟩ := merge_params_error_inv _ _ _ hm2 hnd
        refine ⟨dup, ?_, Or.inr ⟨?_, hdl⟩⟩
        · rw [htrans2, hm2, herr]
        · rw [hkeys1] at hdbv
          rcases List.mem_append.mp hdbv with hd | hd
          · exact Or.inl ((hkeyvars dup).mp hd)
          · exact Or.inr hd
      | ok bv2 =>
        exfalso
        obtain ⟨-, hf2, -⟩ := merge_params_ok _ _ _ hm2
        rcases hconf with ⟨hv, hp⟩ | ⟨hvp, hd⟩
        · exact hf1 n hp ((hkeyvars n).mpr hv)
        · apply hf2 n hd
          rw [hkeys1]
          rcases hvp with hv | hp
          · exact List.mem_append.mpr (Or.inl ((hkeyvars n).mpr hv))
          · exact List.mem_append.mpr (Or.inr hp)

/-- Witness for C2 at an endpoint whose URL parameter `a` collides with a
declared query parameter `a`. -/
theorem C2_witness :
    ∃ dup, transform_apiset "e" (APIData.API
        { method := "GET", params := [("a", some "int")], data := [],
          url := "<a:int>" }) =
        Except.error (TransformerError.ParserError
          (ParserError.DuplicateParam dup)) ∧
      ((dup ∈ exprVars (Expr.Var "a") ∧
        dup ∈ ([("a", some "int")] : List (String × Option String)).map Prod.fst) ∨
       ((dup ∈ exprVars (Expr.Var "a") ∨
         dup ∈ ([("a", some "int")] : List (String × Option String)).map Prod.fst) ∧
        dup ∈ ([] : List (String × Option String)).map Prod.fst)) :=
  (C2_endpoint_bound_vars "e"
      { method := "GET", params := [("a", some "int")], data := [],
        url := "<a:int>" }
      (Expr.Var "a") [Param.mk "a" (some "int")] rfl (by decide) (by decide)).2
    "a" (Or.inl (by decide))
